import Mathlib

/-!
Verification development for the streaming chat-completion client of this
repository (`src/services/providers/openrouter.ts`, `src/services/api.ts`,
and the plugin selection in `src/contexts/ChatContext.tsx`).

The embedding is shallow: each JS function of the core is translated into an
executable Lean definition.  Strings are modelled at character granularity
(`List Char` for stream processing); the platform `TextDecoder` with
`stream: true` reassembles split UTF-8 sequences, so byte-offset chunking of
the wire stream coincides with character-offset chunking of the decoded text.
JS numbers that the claims touch are modelled as `Rat` (no arithmetic is
performed on them, only construction and equality).
-/

namespace GptLamp

/-! ## JSON values and `JSON.parse`

The decoder calls the platform `JSON.parse` on each `data:` payload
(`openrouter.ts` line 179).  We embed the JSON grammar it accepts:
whitespace, `null`, booleans, numbers, strings with escapes, arrays and
objects (duplicate keys: the last occurrence wins, as in `JSON.parse`). -/

inductive Json where
  | null : Json
  | bool (b : Bool) : Json
  | num (q : Rat) : Json
  | str (s : String) : Json
  | arr (elems : List Json) : Json
  | obj (fields : List (String × Json)) : Json
deriving Repr

/-- JSON whitespace (RFC 8259: space, tab, line feed, carriage return). -/
def isJsonWs (c : Char) : Bool :=
  c = ' ' || c = '\t' || c = '\n' || c = '\r'

def skipWs : List Char → List Char
  | [] => []
  | c :: cs => if isJsonWs c then skipWs cs else c :: cs

def hexVal (c : Char) : Option Nat :=
  if '0' ≤ c ∧ c ≤ '9' then some (c.toNat - '0'.toNat)
  else if 'a' ≤ c ∧ c ≤ 'f' then some (c.toNat - 'a'.toNat + 10)
  else if 'A' ≤ c ∧ c ≤ 'F' then some (c.toNat - 'A'.toNat + 10)
  else none

/-- Parse the body of a JSON string literal (opening quote already
consumed); returns the decoded characters and the remaining input. -/
def pString : Nat → List Char → Option (List Char × List Char)
  | 0, _ => none
  | _ + 1, [] => none
  | fuel + 1, c :: rest =>
    if c = '"' then some ([], rest)
    else if c = '\\' then
      match rest with
      | [] => none
      | e :: rest' =>
        let dec : Option (Char × List Char) :=
          if e = '"' then some ('"', rest')
          else if e = '\\' then some ('\\', rest')
          else if e = '/' then some ('/', rest')
          else if e = 'b' then some ('\x08', rest')
          else if e = 'f' then some ('\x0c', rest')
          else if e = 'n' then some ('\n', rest')
          else if e = 'r' then some ('\r', rest')
          else if e = 't' then some ('\t', rest')
          else if e = 'u' then
            match rest' with
            | a :: b :: c' :: d :: rest'' =>
              match hexVal a, hexVal b, hexVal c', hexVal d with
              | some x, some y, some z, some w =>
                some (Char.ofNat (((x * 16 + y) * 16 + z) * 16 + w), rest'')
              | _, _, _, _ => none
            | _ => none
          else none
        match dec with
        | none => none
        | some (ch, rest'') =>
          match pString fuel rest'' with
          | some (s, r) => some (ch :: s, r)
          | none => none
    else if c.toNat < 32 then none
    else
      match pString fuel rest with
      | some (s, r) => some (c :: s, r)
      | none => none

def digitVal (c : Char) : Option Nat :=
  if '0' ≤ c ∧ c ≤ '9' then some (c.toNat - '0'.toNat) else none

/-- Consume a maximal run of decimal digits, returning them and the rest. -/
def pDigits : List Char → List Nat × List Char
  | [] => ([], [])
  | c :: cs =>
    match digitVal c with
    | some d =>
      let (ds, r) := pDigits cs
      (d :: ds, r)
    | none => ([], c :: cs)

def digitsToNat (ds : List Nat) : Nat :=
  ds.foldl (fun acc d => acc * 10 + d) 0

/-- Parse a JSON number (sign, integer part with no leading zeros, optional
fraction, optional exponent), as accepted by `JSON.parse`. -/
def pNumber (cs : List Char) : Option (Rat × List Char) :=
  let (neg, cs1) :=
    match cs with
    | '-' :: r => (true, r)
    | _ => (false, cs)
  let (ids, cs2) := pDigits cs1
  match ids with
  | [] => none
  | d0 :: drest =>
    if d0 = 0 ∧ drest ≠ [] then none   -- leading zero rejected
    else
      let intPart : Nat := digitsToNat ids
      let (fds, cs3) :=
        match cs2 with
        | '.' :: r =>
          match pDigits r with
          | ([], _) => ([], '.' :: r)    -- "1." is invalid; signal via fds = [] with dot kept
          | (ds, r') => (ds, r')
        | _ => ([], cs2)
      -- reject "1." (dot present but no fraction digits)
      match cs2, fds with
      | '.' :: _, [] => none
      | _, _ =>
        let base : Rat := (intPart : Rat) + (digitsToNat fds : Rat) / ((10 : Rat) ^ fds.length)
        let signed : Rat := if neg then -base else base
        match cs3 with
        | 'e' :: r | 'E' :: r =>
          let (eneg, r1) :=
            match r with
            | '-' :: r' => (true, r')
            | '+' :: r' => (false, r')
            | _ => (false, r)
          match pDigits r1 with
          | ([], _) => none
          | (eds, r2) =>
            let e := digitsToNat eds
            let v := if eneg then signed / ((10 : Rat) ^ e) else signed * ((10 : Rat) ^ e)
            some (v, r2)
        | _ => some (signed, cs3)

mutual

/-- Parse one JSON value (leading whitespace allowed). -/
def pValue : Nat → List Char → Option (Json × List Char)
  | 0, _ => none
  | fuel + 1, cs =>
    match skipWs cs with
    | [] => none
    | c :: rest =>
      if c = '"' then
        match pString (rest.length + 1) rest with
        | some (s, r) => some (.str (String.mk s), r)
        | none => none
      else if c = '\x7b' then pMembersStart fuel rest
      else if c = '[' then pElemsStart fuel rest
      else if c = 't' then
        match rest with
        | 'r' :: 'u' :: 'e' :: r => some (.bool true, r)
        | _ => none
      else if c = 'f' then
        match rest with
        | 'a' :: 'l' :: 's' :: 'e' :: r => some (.bool false, r)
        | _ => none
      else if c = 'n' then
        match rest with
        | 'u' :: 'l' :: 'l' :: r => some (.null, r)
        | _ => none
      else
        match pNumber (c :: rest) with
        | some (q, r) => some (.num q, r)
        | none => none

/-- After `[`: empty array or first element then `pElemsRest`. -/
def pElemsStart : Nat → List Char → Option (Json × List Char)
  | 0, _ => none
  | fuel + 1, cs =>
    match skipWs cs with
    | ']' :: r => some (.arr [], r)
    | cs' =>
      match pValue fuel cs' with
      | none => none
      | some (v, r) =>
        match pElemsRest fuel r with
        | some (vs, r') => some (.arr (v :: vs), r')
        | none => none

/-- After an element: `,` element … or `]`. -/
def pElemsRest : Nat → List Char → Option (List Json × List Char)
  | 0, _ => none
  | fuel + 1, cs =>
    match skipWs cs with
    | ']' :: r => some ([], r)
    | ',' :: r =>
      match pValue fuel r with
      | none => none
      | some (v, r') =>
        match pElemsRest fuel r' with
        | some (vs, r'') => some (v :: vs, r'')
        | none => none
    | _ => none

/-- After `{`: empty object or first member then `pMembersRest`. -/
def pMembersStart : Nat → List Char → Option (Json × List Char)
  | 0, _ => none
  | fuel + 1, cs =>
    match skipWs cs with
    | '\x7d' :: r => some (.obj [], r)
    | cs' =>
      match pMember fuel cs' with
      | none => none
      | some (kv, r) =>
        match pMembersRest fuel r with
        | some (kvs, r') => some (.obj (kv :: kvs), r')
        | none => none

/-- After a member: `,` member … or `}`. -/
def pMembersRest : Nat → List Char → Option (List (String × Json) × List Char)
  | 0, _ => none
  | fuel + 1, cs =>
    match skipWs cs with
    | '\x7d' :: r => some ([], r)
    | ',' :: r =>
      match pMember fuel r with
      | none => none
      | some (kv, r') =>
        match pMembersRest fuel r' with
        | some (kvs, r'') => some (kv :: kvs, r'')
        | none => none
    | _ => none

/-- One `"key": value` member. -/
def pMember : Nat → List Char → Option ((String × Json) × List Char)
  | 0, _ => none
  | fuel + 1, cs =>
    match skipWs cs with
    | '"' :: rest =>
      match pString (rest.length + 1) rest with
      | none => none
      | some (k, r) =>
        match skipWs r with
        | ':' :: r' =>
          match pValue fuel r' with
          | some (v, r'') => some ((String.mk k, v), r'')
          | none => none
        | _ => none
    | _ => none

end

/-- Model of `JSON.parse` on a character list: one value, with only
whitespace allowed around it; anything else throws (returns `none`). -/
def jsonParse (cs : List Char) : Option Json :=
  match pValue (4 * cs.length + 16) cs with
  | some (v, rest) => if skipWs rest = [] then some v else none
  | none => none

end GptLamp

namespace GptLamp

/-! ## Field extraction and JS truthiness

The decoder reads `parsed.choices?.[0]?.delta?.content` and
`parsed.choices?.[0]?.delta?.reasoning` (`openrouter.ts` lines 180–182) and
guards emission with JS truthiness (`if (chunk)`, `if (reasoningChunk …)`). -/

/-- Object member lookup; with duplicate keys `JSON.parse` keeps the last
occurrence, so the lookup prefers the rightmost binding. -/
def lookupLast : List (String × Json) → String → Option Json
  | [], _ => none
  | (k', v) :: rest, k =>
    match lookupLast rest k with
    | some r => some r
    | none => if k' = k then some v else none

/-- `j?.k` — property access through optional chaining. -/
def jLookup (j : Json) (k : String) : Option Json :=
  match j with
  | .obj fs => lookupLast fs k
  | _ => none

/-- `j?.[n]` — index access through optional chaining.  On a string, JS
indexing yields a one-character string; on an object, the numeric key is
coerced to a string; on anything else the result is `undefined`. -/
def jIndex (j : Json) (n : Nat) : Option Json :=
  match j with
  | .arr xs => xs.get? n
  | .str s => (s.toList.get? n).map (fun c => .str (String.mk [c]))
  | .obj fs => lookupLast fs (toString n)
  | _ => none

/-- JS truthiness of a parsed JSON value. -/
def jsTruthy : Json → Bool
  | .null => false
  | .bool b => b
  | .num q => q ≠ 0
  | .str s => s ≠ ""
  | .arr _ => true
  | .obj _ => true

/-- `parsed.choices?.[0]?.delta?.<name>`. -/
def deltaField (j : Json) (name : String) : Option Json :=
  ((jLookup j "choices").bind (jIndex · 0) |>.bind (jLookup · "delta")).bind
    (jLookup · name)

/-! ## Stream decoder

Embedding of the SSE read loop of `openRouterProvider.streamResponse`
(`openrouter.ts` lines 161–190): the incoming text is appended to a buffer,
the buffer is split on `'\n'`, the trailing segment is carried forward, and
each complete line is processed; `data: [DONE]` fires `onComplete()` and
returns from the whole function, so no later line or chunk is ever
inspected. -/

/-- Decoder events, in emission order (`onChunk`, `onReasoningChunk`,
`onComplete`). -/
inductive Ev where
  | chunk (v : Json) : Ev
  | reasoning (v : Json) : Ev
  | complete : Ev
deriving Repr

/-- `buffer.split('\n')` followed by `buffer = lines.pop() || ''`:
the complete lines, and the trailing partial line. -/
def pushChar (c : Char) : List (List Char) × List Char → List (List Char) × List Char
  | (ls, b) =>
    if c = '\n' then ([] :: ls, b)
    else
      match ls with
      | [] => ([], c :: b)
      | l :: ls' => ((c :: l) :: ls', b)

def splitLines : List Char → List (List Char) × List Char
  | [] => ([], [])
  | c :: rest => pushChar c (splitLines rest)

/-- JS whitespace as removed by `String.prototype.trim`. -/
def isJsWs (c : Char) : Bool :=
  c = ' ' || c = '\t' || c = '\n' || c = '\r' || c = '\x0b' || c = '\x0c' || c = ' '

/-- `!line.trim()` — the line contains only whitespace. -/
def isBlankLine (l : List Char) : Bool := l.all isJsWs

/-- `s.startsWith(pat)` on character lists. -/
def startsList : List Char → List Char → Bool
  | [], _ => true
  | _ :: _, [] => false
  | p :: ps, c :: cs => p = c && startsList ps cs

/-- Emitted events plus the completion latch of one streaming attempt. -/
structure EvState where
  events : List Ev
  completed : Bool
deriving Repr

/-- `if (reasoningChunk && callbacks.onReasoningChunk) callbacks.onReasoningChunk(…)`
(`openrouter.ts` line 183). -/
def reasoningEvents (hasRb : Bool) (parsed : Json) : List Ev :=
  match deltaField parsed "reasoning" with
  | some r => if jsTruthy r && hasRb then [Ev.reasoning r] else []
  | none => []

/-- `if (chunk) onChunk(chunk)` (`openrouter.ts` line 184). -/
def contentEvents (parsed : Json) : List Ev :=
  match deltaField parsed "content" with
  | some c => if jsTruthy c then [Ev.chunk c] else []
  | none => []

/-- Process one complete line (`openrouter.ts` lines 174–185).  After
`[DONE]` the source function has returned, so a completed state absorbs
every further line.  `hasRb` records whether the caller registered
`onReasoningChunk`. -/
def procLine (hasRb : Bool) (st : EvState) (line : List Char) : EvState :=
  if st.completed then st
  else if isBlankLine line then st
  else if !startsList "data: ".toList line then st
  else
    let data := line.drop 6
    if data = "[DONE]".toList then
      { events := st.events ++ [Ev.complete], completed := true }
    else
      match jsonParse data with
      | none => st
      | some parsed =>
        { events := st.events ++ reasoningEvents hasRb parsed ++ contentEvents parsed,
          completed := st.completed }

def procLines (hasRb : Bool) (st : EvState) (ls : List (List Char)) : EvState :=
  ls.foldl (procLine hasRb) st

/-- Full decoder state of one streaming attempt: emitted events plus the
partial-line buffer. -/
structure DecState where
  ev : EvState
  buffer : List Char
deriving Repr

def initDec : DecState := ⟨⟨[], false⟩, []⟩

/-- Deliver one transport chunk to the decoder.  Once completed, the source
function has returned and further chunks are never read. -/
def processChunk (hasRb : Bool) (s : DecState) (chunk : List Char) : DecState :=
  if s.ev.completed then s
  else
    let (ls, b) := splitLines (s.buffer ++ chunk)
    { ev := procLines hasRb s.ev ls, buffer := b }

def decodeRun (hasRb : Bool) (chunks : List (List Char)) : DecState :=
  chunks.foldl (processChunk hasRb) initDec

/-- Events of a whole attempt whose transport stream delivered `chunks` and
then ended: if `[DONE]` never arrived, natural stream end fires
`onComplete()` (`openrouter.ts` line 189). -/
def decodeEvents (hasRb : Bool) (chunks : List (List Char)) : List Ev :=
  let s := decodeRun hasRb chunks
  if s.ev.completed then s.ev.events else s.ev.events ++ [Ev.complete]

end GptLamp

namespace GptLamp

/-! ## Chunk-boundary invariance of the decoder

The buffer discipline of the read loop (append, split on `'\n'`, carry the
trailing segment) makes the emitted event sequence independent of how the
transport cut the stream into chunks. -/

theorem splitLines_nlfree (b : List Char) (h : '\n' ∉ b) : splitLines b = ([], b) := by
  induction b with
  | nil => rfl
  | cons c cs ih =>
    have hc : ¬(c = '\n') := fun e => h (by simp [e])
    have hcs : '\n' ∉ cs := fun m => h (List.mem_cons_of_mem _ m)
    simp [splitLines, ih hcs, pushChar, hc]

theorem splitLines_snd_nlfree (x : List Char) : '\n' ∉ (splitLines x).2 := by
  induction x with
  | nil => simp [splitLines]
  | cons c cs ih =>
    simp only [splitLines]
    rcases hs : splitLines cs with ⟨ls, b⟩
    rw [hs] at ih
    by_cases hc : c = '\n'
    · simpa [pushChar, hc] using ih
    · cases ls with
      | nil =>
        simp only [pushChar, hc, if_false]
        simp only [List.mem_cons, not_or]
        exact ⟨fun e => hc e.symm, ih⟩
      | cons l ls' => simpa [pushChar, hc] using ih

theorem pushChar_nl (p : List (List Char) × List Char) :
    pushChar '\n' p = ([] :: p.1, p.2) := by
  rcases p with ⟨ls, b⟩; simp [pushChar]

theorem pushChar_nil (c : Char) (hc : ¬(c = '\n')) (b : List Char) :
    pushChar c ([], b) = ([], c :: b) := by
  simp [pushChar, hc]

theorem pushChar_cons (c : Char) (hc : ¬(c = '\n')) (l : List Char)
    (ls : List (List Char)) (b : List Char) :
    pushChar c (l :: ls, b) = ((c :: l) :: ls, b) := by
  simp [pushChar, hc]

theorem splitLines_append (a b : List Char) :
    splitLines (a ++ b) =
      ((splitLines a).1 ++ (splitLines ((splitLines a).2 ++ b)).1,
       (splitLines ((splitLines a).2 ++ b)).2) := by
  induction a with
  | nil => simp [splitLines]
  | cons c a' ih =>
    rcases hA : splitLines a' with ⟨ls, r⟩
    rw [hA] at ih
    simp only at ih
    rcases hX : splitLines (r ++ b) with ⟨xls, xb⟩
    rw [hX] at ih
    simp only at ih
    have hL : splitLines ((c :: a') ++ b) = pushChar c (ls ++ xls, xb) := by
      rw [List.cons_append, splitLines, ih]
    have hR : splitLines (c :: a') = pushChar c (ls, r) := by
      rw [splitLines, hA]
    rw [hL, hR]
    by_cases hc : c = '\n'
    · subst hc
      rw [pushChar_nl, pushChar_nl]
      simp only
      rw [hX]
      simp
    · cases ls with
      | nil =>
        rw [List.nil_append, pushChar_nil c hc]
        simp only
        have hStep : splitLines ((c :: r) ++ b) = pushChar c (xls, xb) := by
          rw [List.cons_append, splitLines, hX]
        rw [hStep, List.nil_append]
      | cons l ls' =>
        rw [List.cons_append, pushChar_cons c hc, pushChar_cons c hc]
        simp only
        rw [hX]
        simp

theorem procLine_completed (hasRb : Bool) (st : EvState) (l : List Char)
    (h : st.completed = true) : procLine hasRb st l = st := by
  simp [procLine, h]

theorem procLines_completed (hasRb : Bool) (st : EvState) (ls : List (List Char))
    (h : st.completed = true) : procLines hasRb st ls = st := by
  induction ls with
  | nil => rfl
  | cons l ls ih =>
    unfold procLines at ih ⊢
    rw [List.foldl_cons, procLine_completed _ _ _ h]
    exact ih

theorem procLines_append (hasRb : Bool) (st : EvState) (l1 l2 : List (List Char)) :
    procLines hasRb st (l1 ++ l2) = procLines hasRb (procLines hasRb st l1) l2 :=
  List.foldl_append _ _ _ _

theorem processChunk_completed (hasRb : Bool) (s : DecState) (c : List Char)
    (h : s.ev.completed = true) : processChunk hasRb s c = s := by
  simp [processChunk, h]

theorem processChunk_ev_append (hasRb : Bool) (s : DecState) (a b : List Char) :
    (processChunk hasRb (processChunk hasRb s a) b).ev
      = (processChunk hasRb s (a ++ b)).ev := by
  by_cases hc : s.ev.completed
  · rw [processChunk_completed _ _ _ hc, processChunk_completed _ _ _ hc,
      processChunk_completed _ _ _ hc]
  · rcases hA : splitLines (s.buffer ++ a) with ⟨ls, r⟩
    rcases hX : splitLines (r ++ b) with ⟨xls, xb⟩
    have hAB : splitLines (s.buffer ++ (a ++ b)) = (ls ++ xls, xb) := by
      have h' := splitLines_append (s.buffer ++ a) b
      rw [hA, hX] at h'
      rw [← List.append_assoc]
      exact h'
    simp only [processChunk, hc, if_false, hA, hAB]
    by_cases h1 : (procLines hasRb s.ev ls).completed
    · simp [h1, procLines_append, procLines_completed _ _ xls h1]
    · simp [h1, hX, procLines_append]

theorem foldl_processChunk_flatten (hasRb : Bool) :
    ∀ (parts : List (List Char)) (s : DecState), '\n' ∉ s.buffer →
      (List.foldl (processChunk hasRb) s parts).ev
        = (processChunk hasRb s parts.flatten).ev := by
  intro parts
  induction parts with
  | nil =>
    intro s hnl
    by_cases hc : s.ev.completed
    · simp [processChunk_completed _ _ _ hc]
    · simp [processChunk, hc, splitLines_nlfree _ hnl, procLines]
  | cons p rest ih =>
    intro s hnl
    have hnl' : '\n' ∉ (processChunk hasRb s p).buffer := by
      by_cases hc : s.ev.completed
      · rw [processChunk_completed _ _ _ hc]; exact hnl
      · simp only [processChunk, hc, if_false]
        rcases hA : splitLines (s.buffer ++ p) with ⟨ls, r⟩
        have h' := splitLines_snd_nlfree (s.buffer ++ p)
        rw [hA] at h'
        simpa using h'
    rw [List.foldl_cons, ih _ hnl']
    have hflat : (p :: rest).flatten = p ++ rest.flatten := by simp
    rw [hflat, processChunk_ev_append]

/-- C3: for every transcript, however the transport cuts it into chunks, the
decoder emits the identical event sequence as when the whole transcript is
delivered in one chunk.  (Proved for all character streams, valid SSE or
not; byte-offset splits coincide with character-offset splits because
`TextDecoder` with `stream: true` carries split UTF-8 sequences across
chunk boundaries.) -/
theorem c3_decoder_chunk_split_invariance (hasRb : Bool) (parts : List (List Char)) :
    decodeEvents hasRb parts = decodeEvents hasRb [parts.flatten] := by
  have h1 : (decodeRun hasRb parts).ev = (decodeRun hasRb [parts.flatten]).ev := by
    unfold decodeRun
    rw [foldl_processChunk_flatten hasRb parts initDec (by simp [initDec])]
    rw [List.foldl_cons, List.foldl_nil]
  simp only [decodeEvents]
  rw [h1]

end GptLamp

namespace GptLamp

/-! ## Completion events are single and final -/

/-- Invariant of the event state: before `[DONE]` no completion event has
been emitted; once completed, the event list ends with the one completion
event and nothing follows it. -/
def EvInv (es : EvState) : Prop :=
  (es.completed = true → ∃ pre, es.events = pre ++ [Ev.complete] ∧ Ev.complete ∉ pre) ∧
  (es.completed = false → Ev.complete ∉ es.events)

theorem complete_not_mem_reasoningEvents (hasRb : Bool) (j : Json) :
    Ev.complete ∉ reasoningEvents hasRb j := by
  unfold reasoningEvents
  split
  all_goals try split_ifs
  all_goals simp

theorem complete_not_mem_contentEvents (j : Json) :
    Ev.complete ∉ contentEvents j := by
  unfold contentEvents
  split
  all_goals try split_ifs
  all_goals simp

theorem evInv_init : EvInv ⟨[], false⟩ := by
  constructor
  · intro h; simp at h
  · intro _; simp

theorem evInv_procLine (hasRb : Bool) (st : EvState) (l : List Char) (hi : EvInv st) :
    EvInv (procLine hasRb st l) := by
  unfold procLine
  dsimp only
  split_ifs with h1 h2 h3 h4
  · exact hi
  · exact hi
  · exact hi
  · constructor
    · intro _
      exact ⟨st.events, rfl, hi.2 (by simpa using h1)⟩
    · intro hfalse
      simp at hfalse
  · cases hp : jsonParse (l.drop 6) with
    | none => exact hi
    | some parsed =>
      constructor
      · intro hcomp
        exact absurd hcomp (by simpa using h1)
      · intro _
        have hni := hi.2 (by simpa using h1)
        simp only [List.mem_append, not_or]
        exact ⟨⟨hni, complete_not_mem_reasoningEvents hasRb parsed⟩,
          complete_not_mem_contentEvents parsed⟩

theorem evInv_procLines (hasRb : Bool) (ls : List (List Char)) :
    ∀ (st : EvState), EvInv st → EvInv (procLines hasRb st ls) := by
  induction ls with
  | nil => intro st hi; exact hi
  | cons l ls ih =>
    intro st hi
    unfold procLines at ih ⊢
    rw [List.foldl_cons]
    exact ih _ (evInv_procLine hasRb st l hi)

theorem evInv_processChunk (hasRb : Bool) (s : DecState) (c : List Char)
    (hi : EvInv s.ev) : EvInv (processChunk hasRb s c).ev := by
  by_cases hc : s.ev.completed
  · rw [processChunk_completed _ _ _ hc]; exact hi
  · simp only [processChunk, hc, if_false]
    exact evInv_procLines hasRb _ s.ev hi

theorem evInv_decodeRun (hasRb : Bool) (chunks : List (List Char)) :
    EvInv (decodeRun hasRb chunks).ev := by
  unfold decodeRun
  have hgen : ∀ (cs : List (List Char)) (s : DecState), EvInv s.ev →
      EvInv (List.foldl (processChunk hasRb) s cs).ev := by
    intro cs
    induction cs with
    | nil => intro s hi; exact hi
    | cons c cs ih =>
      intro s hi
      rw [List.foldl_cons]
      exact ih _ (evInv_processChunk hasRb s c hi)
  exact hgen chunks initDec evInv_init

/-- The event list of a whole attempt always ends with its single
completion event. -/
theorem decodeEvents_ends_complete (hasRb : Bool) (chunks : List (List Char)) :
    ∃ pre, decodeEvents hasRb chunks = pre ++ [Ev.complete] ∧ Ev.complete ∉ pre := by
  have hi := evInv_decodeRun hasRb chunks
  simp only [decodeEvents]
  cases h : (decodeRun hasRb chunks).ev.completed
  · exact ⟨(decodeRun hasRb chunks).ev.events, by simp [h], hi.2 h⟩
  · obtain ⟨pre, he, hn⟩ := hi.1 h
    exact ⟨pre, by simp [h, he], hn⟩

/-- If a list equals `pre ++ [x]` with `x ∉ pre`, then any decomposition
around `x` has an empty suffix. -/
theorem append_single_eq_middle {α : Type} {x : α} :
    ∀ (pre pre' suf : List α), x ∉ pre → pre ++ [x] = pre' ++ x :: suf → suf = [] := by
  intro pre pre' suf
  induction pre' generalizing pre with
  | nil =>
    intro hnm heq
    cases pre with
    | nil => simpa using heq
    | cons p pt =>
      rw [List.cons_append] at heq
      injection heq with hh ht
      subst hh
      exact absurd (List.mem_cons_self _ _) hnm
  | cons q qt ih =>
    intro hnm heq
    cases pre with
    | nil =>
      rw [List.cons_append] at heq
      injection heq with hh ht
      have hlen := congrArg List.length ht
      simp only [List.length_nil, List.length_append, List.length_cons] at hlen
      omega
    | cons p pt =>
      rw [List.cons_append, List.cons_append] at heq
      injection heq with hh ht
      exact ih pt (fun m => hnm (List.mem_cons_of_mem _ m)) ht

/-- The three-frame transcript of the §8 scenario: two content frames and
the `[DONE]` sentinel, each frame followed by a blank line. -/
def scenarioTranscript : String :=
  "data: \x7b\"choices\":[\x7b\"delta\":\x7b\"content\":\"Hi\"\x7d\x7d]\x7d\n\ndata: \x7b\"choices\":[\x7b\"delta\":\x7b\"content\":\" there\"\x7d\x7d]\x7d\n\ndata: [DONE]\n\n"

def scenarioEvents : List Ev :=
  [Ev.chunk (Json.str "Hi"), Ev.chunk (Json.str " there"), Ev.complete]

set_option maxRecDepth 100000 in
/-- C4: the decoder delivers answer chunks in stream order and signals
completion on the `[DONE]` sentinel while inspecting no further lines: the
two-frame scenario produces `onChunk("Hi")`, `onChunk(" there")`,
`onComplete()` in that order with no error; appending arbitrary further
bytes after `[DONE]` changes nothing; and in every decoded event sequence
nothing follows the completion event. -/
theorem c4_decoder_order_done_and_no_chunk_after_complete (rb : Bool) :
    decodeEvents rb [scenarioTranscript.toList] = scenarioEvents ∧
    (∀ extra : List Char,
      decodeEvents rb [scenarioTranscript.toList ++ extra] = scenarioEvents) ∧
    (∀ (parts : List (List Char)) (pre suf : List Ev),
      decodeEvents rb parts = pre ++ Ev.complete :: suf → suf = []) := by
  refine ⟨?_, ?_, ?_⟩
  · cases rb <;> rfl
  · intro extra
    have h2 : processChunk rb initDec scenarioTranscript.toList
        = ⟨⟨scenarioEvents, true⟩, []⟩ := by
      cases rb <;> rfl
    have h1 := processChunk_ev_append rb initDec scenarioTranscript.toList extra
    rw [h2, processChunk_completed rb _ _ rfl] at h1
    simp only [decodeEvents, decodeRun, List.foldl_cons, List.foldl_nil]
    rw [← h1]
    simp
  · intro parts pre suf heq
    obtain ⟨pre', he, hn⟩ := decodeEvents_ends_complete rb parts
    exact append_single_eq_middle pre' pre suf hn (he ▸ heq)

/-- Witness for C4: the hypotheses of the final conjunct are satisfiable at
the scenario transcript itself. -/
theorem c4_decoder_order_witness : ([] : List Ev) = [] :=
  (c4_decoder_order_done_and_no_chunk_after_complete true).2.2
    [scenarioTranscript.toList]
    [Ev.chunk (Json.str "Hi"), Ev.chunk (Json.str " there")] []
    (by rfl)

end GptLamp

namespace GptLamp

/-! ## Malformed frames are dropped without aborting the stream -/

theorem startsList_append_self (pat s : List Char) :
    startsList pat (pat ++ s) = true := by
  induction pat with
  | nil => rfl
  | cons p ps ih => simp [startsList, ih]

/-- A newline-free line followed by `'\n'` contributes exactly one complete
line to the split. -/
theorem splitLines_dataline (q rest : List Char) (h : '\n' ∉ q) :
    splitLines (q ++ '\n' :: rest) =
      (q :: (splitLines rest).1, (splitLines rest).2) := by
  induction q with
  | nil =>
    rw [List.nil_append, splitLines, pushChar_nl]
  | cons c q' ih =>
    have hc : ¬(c = '\n') := fun e => h (by simp [e])
    have hq' : '\n' ∉ q' := fun mm => h (List.mem_cons_of_mem _ mm)
    rw [List.cons_append, splitLines, ih hq', pushChar_cons c hc]

/-- Processing a complete `data: <payload>` line. -/
theorem procLine_data (hasRb : Bool) (st : EvState) (p : List Char)
    (hc : st.completed = false) :
    procLine hasRb st ("data: ".toList ++ p) =
      (if p = "[DONE]".toList then
        { events := st.events ++ [Ev.complete], completed := true }
      else
        match jsonParse p with
        | none => st
        | some parsed =>
          { events := st.events ++ reasoningEvents hasRb parsed ++ contentEvents parsed,
            completed := st.completed }) := by
  have hblank : isBlankLine ("data: ".toList ++ p) = false := rfl
  have hstart : startsList "data: ".toList ("data: ".toList ++ p) = true :=
    startsList_append_self _ _
  have hdrop : ("data: ".toList ++ p).drop 6 = p := rfl
  unfold procLine
  dsimp only
  rw [hc, hblank, hstart, hdrop]
  simp

theorem reasoningEvents_none (hasRb : Bool) (j : Json)
    (h : deltaField j "reasoning" = none) : reasoningEvents hasRb j = [] := by
  unfold reasoningEvents
  rw [h]

theorem contentEvents_str (j : Json) (c : String)
    (h : deltaField j "content" = some (Json.str c)) (hne : c ≠ "") :
    contentEvents j = [Ev.chunk (Json.str c)] := by
  unfold contentEvents
  rw [h]
  simp [jsTruthy, hne]

/-- C5: in a transcript whose middle `data:` payload fails JSON parsing
while the surrounding frames are valid content frames, the decoder drops
the malformed line without aborting: both valid frames' content is emitted
and the stream still completes on `[DONE]` (no early termination). -/
theorem c5_malformed_frame_dropped (rb : Bool) (p1 m p2 : List Char)
    (j1 j2 : Json) (c1 c2 : String)
    (h1n : '\n' ∉ p1) (hmn : '\n' ∉ m) (h2n : '\n' ∉ p2)
    (hp1 : jsonParse p1 = some j1) (hp2 : jsonParse p2 = some j2)
    (hm : jsonParse m = none) (hmd : ¬(m = "[DONE]".toList))
    (hc1 : deltaField j1 "content" = some (Json.str c1)) (hc1ne : c1 ≠ "")
    (hr1 : deltaField j1 "reasoning" = none)
    (hc2 : deltaField j2 "content" = some (Json.str c2)) (hc2ne : c2 ≠ "")
    (hr2 : deltaField j2 "reasoning" = none) :
    decodeEvents rb
      ["data: ".toList ++ p1 ++ '\n' ::
        ("data: ".toList ++ m ++ '\n' ::
          ("data: ".toList ++ p2 ++ '\n' ::
            ("data: ".toList ++ "[DONE]".toList ++ '\n' :: [])))]
      = [Ev.chunk (Json.str c1), Ev.chunk (Json.str c2), Ev.complete] := by
  have hdone : jsonParse "[DONE]".toList = none := rfl
  have hp1d : ¬(p1 = "[DONE]".toList) := by
    intro e; rw [e, hdone] at hp1; cases hp1
  have hp2d : ¬(p2 = "[DONE]".toList) := by
    intro e; rw [e, hdone] at hp2; cases hp2
  have hpre : '\n' ∉ "data: ".toList := by decide
  have hnl1 : '\n' ∉ "data: ".toList ++ p1 := by
    simp only [List.mem_append, not_or]; exact ⟨hpre, h1n⟩
  have hnlm : '\n' ∉ "data: ".toList ++ m := by
    simp only [List.mem_append, not_or]; exact ⟨hpre, hmn⟩
  have hnl2 : '\n' ∉ "data: ".toList ++ p2 := by
    simp only [List.mem_append, not_or]; exact ⟨hpre, h2n⟩
  have hnld : '\n' ∉ "data: ".toList ++ "[DONE]".toList := by decide
  have hsplit :
      splitLines
        ("data: ".toList ++ p1 ++ '\n' ::
          ("data: ".toList ++ m ++ '\n' ::
            ("data: ".toList ++ p2 ++ '\n' ::
              ("data: ".toList ++ "[DONE]".toList ++ '\n' :: [])))) =
        ([("data: ".toList ++ p1), ("data: ".toList ++ m),
          ("data: ".toList ++ p2), ("data: ".toList ++ "[DONE]".toList)], []) := by
    rw [splitLines_dataline _ _ hnl1, splitLines_dataline _ _ hnlm,
      splitLines_dataline _ _ hnl2, splitLines_dataline _ _ hnld]
    simp [splitLines]
  have e1 : procLine rb ⟨[], false⟩ ("data: ".toList ++ p1)
      = ⟨[Ev.chunk (Json.str c1)], false⟩ := by
    rw [procLine_data rb _ p1 rfl, if_neg hp1d, hp1]
    simp [reasoningEvents_none rb j1 hr1, contentEvents_str j1 c1 hc1 hc1ne]
  have e2 : procLine rb ⟨[Ev.chunk (Json.str c1)], false⟩ ("data: ".toList ++ m)
      = ⟨[Ev.chunk (Json.str c1)], false⟩ := by
    rw [procLine_data rb _ m rfl, if_neg hmd, hm]
  have e3 : procLine rb ⟨[Ev.chunk (Json.str c1)], false⟩ ("data: ".toList ++ p2)
      = ⟨[Ev.chunk (Json.str c1), Ev.chunk (Json.str c2)], false⟩ := by
    rw [procLine_data rb _ p2 rfl, if_neg hp2d, hp2]
    simp [reasoningEvents_none rb j2 hr2, contentEvents_str j2 c2 hc2 hc2ne]
  have e4 : procLine rb ⟨[Ev.chunk (Json.str c1), Ev.chunk (Json.str c2)], false⟩
      ("data: ".toList ++ "[DONE]".toList)
      = ⟨[Ev.chunk (Json.str c1), Ev.chunk (Json.str c2), Ev.complete], true⟩ := by
    rw [procLine_data rb _ _ rfl, if_pos rfl]
    simp
  simp only [decodeEvents, decodeRun, List.foldl_cons, List.foldl_nil]
  rw [processChunk]
  simp only [initDec, Bool.false_eq_true, if_false, List.nil_append, hsplit]
  simp only [procLines, List.foldl_cons, List.foldl_nil, e1, e2, e3, e4]
  simp

/-- Witness for C5 at a concrete transcript: valid `"Hi"` frame, malformed
payload, valid `" there"` frame, then `[DONE]`. -/
theorem c5_malformed_frame_dropped_witness :
    decodeEvents true
      ["data: ".toList ++ "\x7b\"choices\":[\x7b\"delta\":\x7b\"content\":\"Hi\"\x7d\x7d]\x7d".toList ++ '\n' ::
        ("data: ".toList ++ "\x7b\"bad\"".toList ++ '\n' ::
          ("data: ".toList ++ "\x7b\"choices\":[\x7b\"delta\":\x7b\"content\":\" there\"\x7d\x7d]\x7d".toList ++ '\n' ::
            ("data: ".toList ++ "[DONE]".toList ++ '\n' :: [])))]
      = [Ev.chunk (Json.str "Hi"), Ev.chunk (Json.str " there"), Ev.complete] :=
  c5_malformed_frame_dropped true
    "\x7b\"choices\":[\x7b\"delta\":\x7b\"content\":\"Hi\"\x7d\x7d]\x7d".toList
    "\x7b\"bad\"".toList
    "\x7b\"choices\":[\x7b\"delta\":\x7b\"content\":\" there\"\x7d\x7d]\x7d".toList
    (Json.obj [("choices",
      Json.arr [Json.obj [("delta", Json.obj [("content", Json.str "Hi")])]])])
    (Json.obj [("choices",
      Json.arr [Json.obj [("delta", Json.obj [("content", Json.str " there")])]])])
    "Hi" " there"
    (by decide) (by decide) (by decide)
    (by rfl) (by rfl) (by rfl) (by decide)
    (by rfl) (by decide) (by rfl)
    (by rfl) (by decide) (by rfl)

end GptLamp

namespace GptLamp

/-! ## Retry loops and terminal-callback delivery

Embedding of the retry loops: `openRouterProvider.sendMessage`
(`openrouter.ts` lines 43–101), `openRouterProvider.streamResponse`
(lines 103–196), and the wrapping loops of `xaiService` (`api.ts` lines
199–336).  One physical HTTP attempt is abstracted by its outcome; the
sequence of outcomes the network would produce is a function from the
attempt index.  `RETRY_DELAY` and `MAX_RETRIES` are the source constants. -/

def MAX_RETRIES : Nat := 2
def RETRY_DELAY : Nat := 1000

/-- `handleApiError` (`openrouter.ts` lines 30–40): message classification
of a non-ok response.  `errMsg` is `data?.error?.message` when the body
parsed to a truthy message, else `none`. -/
def handleApiErrorMsg (status : Nat) (statusText : String) (errMsg : Option String) : String :=
  if status = 401 then "Authentication failed: Invalid API key."
  else if status = 429 then "Rate limit exceeded. Please try again later."
  else
    match errMsg with
    | some m => m
    | none => "Error: " ++ toString status ++ " " ++ statusText

/-- Outcome of one physical streaming attempt.
  * `http`: `fetch` resolved but `!res.ok` — `handleApiError` throws.
  * `netFail`: `fetch` (or another step) rejected with a generic error.
  * `nullBody`: `res.ok` but `res.body` was null — throws.
  * `timeout`: the 30-second timer fired while the request was in flight;
    the timer callback aborts the controller, sets `aborted`, and calls
    `onError` itself; the rejected `fetch` is then swallowed by
    `if (aborted) return`.
  * `stream chunks midFail`: the body streamed `chunks`; if
    `midFail = some e` the next `reader.read()` rejected with `e` after
    those chunks, otherwise the stream ended naturally. -/
inductive AttemptOutcome where
  | http (status : Nat) (statusText : String) (errMsg : Option String)
  | netFail (msg : String)
  | nullBody
  | timeout
  | stream (chunks : List (List Char)) (midFail : Option String)

/-- Events observable by the caller of `streamResponse` across the whole
logical call: decoder events plus `onError`. -/
inductive TEv where
  | chunk (v : Json) : TEv
  | reasoning (v : Json) : TEv
  | complete : TEv
  | errorEv (msg : String) : TEv

def Ev.toT : Ev → TEv
  | .chunk v => .chunk v
  | .reasoning v => .reasoning v
  | .complete => .complete

/-- Result of the retry loop of a logical streaming call: the callbacks
the loop itself delivers, the number of physical attempts, the backoff
delays awaited between them — and `staleTimers`, the number of 30-second
timers the loop left armed.  `clearTimeout` (line 156) runs only after
`await fetch` resolves; when `fetch` rejects, control jumps to the catch
(lines 191–194), which performs no cleanup, so that attempt's timer stays
armed and will later fire its unconditional callback, which calls the
caller's `onError` (and redundantly sets `aborted`). -/
structure RunRes where
  trace : List TEv
  attempts : Nat
  delays : List Nat
  staleTimers : Nat

/-- The retry loop of `openRouterProvider.streamResponse` (lines 106–195):
`while (retries <= MAX_RETRIES && !aborted)`, with the catch block
`if (aborted) return; if (retries >= MAX_RETRIES) { onError(err); return; }
retries++; await delay(RETRY_DELAY * retries);`.  Fuel is structural; the
loop runs at most `MAX_RETRIES + 1` iterations.  Every outcome in which
`fetch` resolved (`http`, `nullBody`, `stream`) passes `clearTimeout`, and
a fired timeout consumes its own timer; only a rejected `fetch`
(`netFail`) leaves its timer armed, counted in `staleTimers`. -/
def streamLoop (hasRb : Bool) (outs : Nat → AttemptOutcome) : Nat → Nat → RunRes
  | 0, _ => ⟨[], 0, [], 0⟩
  | fuel + 1, retries =>
    if retries > MAX_RETRIES then ⟨[], 0, [], 0⟩
    else
      match outs retries with
      | .timeout => ⟨[TEv.errorEv "Request timed out after 30 seconds"], 1, [], 0⟩
      | .http status statusText errMsg =>
        let msg := handleApiErrorMsg status statusText errMsg
        if retries ≥ MAX_RETRIES then ⟨[TEv.errorEv msg], 1, [], 0⟩
        else
          let r := streamLoop hasRb outs fuel (retries + 1)
          ⟨r.trace, r.attempts + 1, RETRY_DELAY * (retries + 1) :: r.delays, r.staleTimers⟩
      | .netFail msg =>
        if retries ≥ MAX_RETRIES then ⟨[TEv.errorEv msg], 1, [], 1⟩
        else
          let r := streamLoop hasRb outs fuel (retries + 1)
          ⟨r.trace, r.attempts + 1, RETRY_DELAY * (retries + 1) :: r.delays,
            r.staleTimers + 1⟩
      | .nullBody =>
        if retries ≥ MAX_RETRIES then ⟨[TEv.errorEv "Response body is null"], 1, [], 0⟩
        else
          let r := streamLoop hasRb outs fuel (retries + 1)
          ⟨r.trace, r.attempts + 1, RETRY_DELAY * (retries + 1) :: r.delays, r.staleTimers⟩
      | .stream chunks midFail =>
        let s := decodeRun hasRb chunks
        if s.ev.completed then ⟨s.ev.events.map Ev.toT, 1, [], 0⟩
        else
          match midFail with
          | none => ⟨(s.ev.events ++ [Ev.complete]).map Ev.toT, 1, [], 0⟩
          | some msg =>
            if retries ≥ MAX_RETRIES then
              ⟨s.ev.events.map Ev.toT ++ [TEv.errorEv msg], 1, [], 0⟩
            else
              let r := streamLoop hasRb outs fuel (retries + 1)
              ⟨s.ev.events.map Ev.toT ++ r.trace, r.attempts + 1,
                RETRY_DELAY * (retries + 1) :: r.delays, r.staleTimers⟩

/-- One logical `openRouterProvider.streamResponse` call (retry loop only;
the stale timers it leaves armed are appended by
`streamResponseEvents`). -/
def streamResponseRun (hasRb : Bool) (outs : Nat → AttemptOutcome) : RunRes :=
  streamLoop hasRb outs (MAX_RETRIES + 1) 0

/-- Full callback trace of one logical `streamResponse` call: the loop's
own callbacks followed by one `onError("Request timed out after 30
seconds")` per stale timer, each firing 30 seconds after its attempt
started.  Modelled at the canonical timing where retries and streaming
finish within 30 seconds of each attempt's start, so the stale timers
fire after the loop has returned, in arming order. -/
def streamResponseEvents (hasRb : Bool) (outs : Nat → AttemptOutcome) : List TEv :=
  (streamResponseRun hasRb outs).trace
    ++ List.replicate (streamResponseRun hasRb outs).staleTimers
        (TEv.errorEv "Request timed out after 30 seconds")

/-- Outcome of one physical buffered (`sendMessage`) attempt.
`malformed` is a response whose body `res.json()` failed to parse. -/
inductive SendOutcome where
  | ok (content : String)
  | http (status : Nat) (statusText : String) (errMsg : Option String)
  | netFail (msg : String)
  | malformed (msg : String)

/-- What one attempt of the `sendMessage` body produces: the returned
content, or the thrown error's message. -/
def sendAttempt : SendOutcome → Except String String
  | .ok c => .ok c
  | .http status statusText errMsg => .error (handleApiErrorMsg status statusText errMsg)
  | .netFail m => .error m
  | .malformed m => .error m

structure SendRun where
  attempts : Nat
  delays : List Nat
  result : Except String String

/-- The retry loop of `openRouterProvider.sendMessage` (lines 45–100):
on error, `lastError = err; retries++; if (retries > MAX_RETRIES) break;`
then `await delay(RETRY_DELAY * retries)`; after the loop the error is
rethrown once, wrapped. -/
def sendLoop (outs : Nat → SendOutcome) : Nat → Nat → SendRun
  | 0, _ => ⟨0, [], .error ""⟩
  | fuel + 1, retries =>
    if retries > MAX_RETRIES then ⟨0, [], .error ""⟩
    else
      match sendAttempt (outs retries) with
      | .ok c => ⟨1, [], .ok c⟩
      | .error e =>
        if retries + 1 > MAX_RETRIES then
          ⟨1, [], .error ("Failed to get response from OpenRouter API: " ++ e)⟩
        else
          let r := sendLoop outs fuel (retries + 1)
          ⟨r.attempts + 1, RETRY_DELAY * (retries + 1) :: r.delays, r.result⟩

/-- One logical `openRouterProvider.sendMessage` call. -/
def sendMessageRun (outs : Nat → SendOutcome) : SendRun :=
  sendLoop outs (MAX_RETRIES + 1) 0

/-- The outer retry loop of `xaiService.sendMessage` (`api.ts` lines
221–253): each iteration calls `openRouterProvider.sendMessage` — which
runs its own full retry loop — and retries again on rejection, with its
own delays and its own wrapping of the error message.  `idx` is the index
of the next unconsumed physical outcome. -/
def xaiSendLoop (outs : Nat → SendOutcome) : Nat → Nat → Nat → SendRun
  | 0, _, _ => ⟨0, [], .error ""⟩
  | fuel + 1, retries, idx =>
    if retries > MAX_RETRIES then
      ⟨0, [], .error "Failed to get response from OpenRouter API after retries"⟩
    else
      let inner := sendMessageRun (fun k => outs (idx + k))
      match inner.result with
      | .ok c => ⟨inner.attempts, inner.delays, .ok c⟩
      | .error e =>
        if retries ≥ MAX_RETRIES then
          ⟨inner.attempts, inner.delays,
            .error ("Failed to get response from OpenRouter API: " ++ e)⟩
        else
          let r := xaiSendLoop outs fuel (retries + 1) (idx + inner.attempts)
          ⟨inner.attempts + r.attempts,
            inner.delays ++ RETRY_DELAY * (retries + 1) :: r.delays, r.result⟩

/-- One logical `xaiService.sendMessage` call (the composition the UI's
`callAI` path actually invokes). -/
def xaiSendMessageRun (outs : Nat → SendOutcome) : SendRun :=
  xaiSendLoop outs (MAX_RETRIES + 1) 0 0

/-- `prepareApiKey` of `api.ts` (lines 61–80). -/
def prepareApiKeyService (apiKey : String) : Except String String :=
  if apiKey = "" then .error "API Key is required"
  else
    let cleanKey := (apiKey.toList.dropWhile isJsWs).reverse.dropWhile isJsWs |>.reverse
    if cleanKey.length < 10 then .error "API Key appears to be invalid (too short)"
    else if startsList "bearer ".toList (cleanKey.map Char.toLower) then
      .ok (String.mk (cleanKey.drop 7))
    else .ok (String.mk cleanKey)

/-- One logical `xaiService.streamResponse` call (`api.ts` lines 262–336):
invalid keys surface one `onError`; otherwise the provider is invoked and
— since `openRouterProvider.streamResponse` reports every failure through
callbacks and resolves — the wrapper's own retry loop runs exactly one
iteration and returns.  The wrapper arms no timer of its own; stale
timers come from the provider's rejected fetches. -/
def xaiStreamRun (apiKey : String) (hasRb : Bool) (outs : Nat → AttemptOutcome) : RunRes :=
  match prepareApiKeyService apiKey with
  | .error e => ⟨[TEv.errorEv ("API Key error: " ++ e)], 0, [], 0⟩
  | .ok _ => streamResponseRun hasRb outs

end GptLamp

namespace GptLamp

/-! ## Exactly one terminal callback per logical call -/

/-- Terminal callbacks: `onComplete` or `onError`. -/
def TEv.isTerminal : TEv → Bool
  | .complete => true
  | .errorEv _ => true
  | _ => false

def terminalCount (tr : List TEv) : Nat := (tr.filter TEv.isTerminal).length

theorem terminalCount_append (a b : List TEv) :
    terminalCount (a ++ b) = terminalCount a + terminalCount b := by
  simp [terminalCount, List.filter_append]

theorem terminalCount_map_no_complete (es : List Ev) (h : Ev.complete ∉ es) :
    terminalCount (es.map Ev.toT) = 0 := by
  induction es with
  | nil => rfl
  | cons e rest ih =>
    have hr : Ev.complete ∉ rest := fun mm => h (List.mem_cons_of_mem _ mm)
    have ht : TEv.isTerminal (Ev.toT e) = false := by
      cases e with
      | chunk v => rfl
      | reasoning v => rfl
      | complete => exact absurd (List.mem_cons_self _ _) h
    simp only [List.map_cons, terminalCount, List.filter_cons, ht]
    exact ih hr

theorem terminalCount_map_ends_complete (pre : List Ev) (h : Ev.complete ∉ pre) :
    terminalCount ((pre ++ [Ev.complete]).map Ev.toT) = 1 := by
  rw [List.map_append, terminalCount_append, terminalCount_map_no_complete pre h]
  rfl

/-- The retry loop itself delivers exactly one terminal callback per
logical call; the extra `onError` firings of stale timers are what breaks
the exactly-once guarantee at the full-call level. -/
theorem streamLoop_one_terminal (hasRb : Bool) (outs : Nat → AttemptOutcome) :
    ∀ (fuel retries : Nat), retries ≤ MAX_RETRIES → MAX_RETRIES + 1 ≤ fuel + retries →
      terminalCount (streamLoop hasRb outs fuel retries).trace = 1 := by
  intro fuel
  induction fuel with
  | zero =>
    intro retries h1 h2
    exfalso
    simp [MAX_RETRIES] at h1 h2
    omega
  | succ f ih =>
    intro retries h1 h2
    unfold streamLoop
    rw [if_neg (by omega)]
    cases houts : outs retries with
    | timeout => rfl
    | http status statusText errMsg =>
      by_cases hr : retries ≥ MAX_RETRIES
      · simp [hr, terminalCount, TEv.isTerminal]
      · simp only [hr, if_false]
        exact ih (retries + 1) (by omega) (by omega)
    | netFail msg =>
      by_cases hr : retries ≥ MAX_RETRIES
      · simp [hr, terminalCount, TEv.isTerminal]
      · simp only [hr, if_false]
        exact ih (retries + 1) (by omega) (by omega)
    | nullBody =>
      by_cases hr : retries ≥ MAX_RETRIES
      · simp [hr, terminalCount, TEv.isTerminal]
      · simp only [hr, if_false]
        exact ih (retries + 1) (by omega) (by omega)
    | stream chunks midFail =>
      have hi := evInv_decodeRun hasRb chunks
      by_cases hcomp : (decodeRun hasRb chunks).ev.completed
      · obtain ⟨pre, he, hn⟩ := hi.1 hcomp
        simp only [hcomp, if_true]
        rw [he]
        exact terminalCount_map_ends_complete pre hn
      · have hnc := hi.2 (by simpa using hcomp)
        simp only [hcomp, if_false]
        cases midFail with
        | none =>
          exact terminalCount_map_ends_complete _ hnc
        | some msg =>
          by_cases hr : retries ≥ MAX_RETRIES
          · simp only [hr, if_true]
            show terminalCount
              (List.map Ev.toT (decodeRun hasRb chunks).ev.events ++ [TEv.errorEv msg]) = 1
            rw [terminalCount_append, terminalCount_map_no_complete _ hnc]
            rfl
          · simp only [hr, if_false]
            show terminalCount
              (List.map Ev.toT (decodeRun hasRb chunks).ev.events
                ++ (streamLoop hasRb outs f (retries + 1)).trace) = 1
            rw [terminalCount_append, terminalCount_map_no_complete _ hnc,
              ih (retries + 1) (by omega) (by omega)]

set_option maxRecDepth 100000 in
/-- C9 (code bug): the claim — exactly one of `onComplete`/`onError` per
logical call, never both — is the spec's explicit guarantee and plainly
the code's intent (the loop body itself delivers exactly one terminal
callback, `streamLoop_one_terminal`), but the code violates it: when the
first attempt's `fetch` rejects with a network failure, its 30-second
timer is never cleared (the catch at `openrouter.ts` lines 191–194 has no
`clearTimeout`), so after a second attempt streams `Hi`, ` there`,
`[DONE]` and fires `onComplete`, the stale timer fires `onError` as well —
two terminal callbacks for one logical call. -/
theorem c9_stale_timer_fires_second_terminal :
    streamResponseEvents true
        (fun n => if n = 0 then AttemptOutcome.netFail "network error"
          else AttemptOutcome.stream [scenarioTranscript.toList] none)
      = [TEv.chunk (Json.str "Hi"), TEv.chunk (Json.str " there"), TEv.complete,
         TEv.errorEv "Request timed out after 30 seconds"] ∧
    terminalCount
      (streamResponseEvents true
        (fun n => if n = 0 then AttemptOutcome.netFail "network error"
          else AttemptOutcome.stream [scenarioTranscript.toList] none)) = 2 := by
  constructor <;> rfl

end GptLamp

namespace GptLamp

/-! ## Retry bounds, non-retryable causes, timeout behaviour -/

/-- C1 (amended): the 3-attempt bound holds per retry loop —
`openRouterProvider.sendMessage` and `openRouterProvider.streamResponse`
each make exactly 3 physical attempts when every attempt fails with a
retryable network error, with backoff `k × 1000` ms before the k-th retry
and no delay before the first attempt, and `sendMessage` rejects exactly
once.  But the exactly-once delivery fails for streaming: the catch never
clears the 30-second timer of a rejected `fetch`, so after 3 network
failures the exhaustion `onError` is followed by three stale-timer
`onError` firings (4 `onError` calls in all); and `xaiService.sendMessage`
wraps the provider's full retry loop in a second 3-iteration retry loop,
so one logical call through it issues 9 physical attempts, not 3. -/
theorem c1_amended_retry_bounds (msgs : Nat → String) (outs : Nat → SendOutcome)
    (souts : Nat → AttemptOutcome) (hasRb : Bool)
    (hfail : ∀ k, sendAttempt (outs k) = .error (msgs k))
    (hsfail : ∀ k, souts k = .netFail (msgs k)) :
    (sendMessageRun outs).attempts = 3 ∧
    (sendMessageRun outs).delays = [1000, 2000] ∧
    (sendMessageRun outs).result
      = .error ("Failed to get response from OpenRouter API: " ++ msgs 2) ∧
    (streamResponseRun hasRb souts).attempts = 3 ∧
    (streamResponseRun hasRb souts).delays = [1000, 2000] ∧
    streamResponseEvents hasRb souts
      = [TEv.errorEv (msgs 2), TEv.errorEv "Request timed out after 30 seconds",
         TEv.errorEv "Request timed out after 30 seconds",
         TEv.errorEv "Request timed out after 30 seconds"] ∧
    (xaiSendMessageRun outs).attempts = 9 := by
  have hsend : ∀ i, sendMessageRun (fun k => outs (i + k)) =
      ⟨3, [1000, 2000],
        .error ("Failed to get response from OpenRouter API: " ++ msgs (i + 2))⟩ := by
    intro i
    simp [sendMessageRun, sendLoop, hfail, MAX_RETRIES, RETRY_DELAY]
  have hsend0 : sendMessageRun outs =
      ⟨3, [1000, 2000],
        .error ("Failed to get response from OpenRouter API: " ++ msgs 2)⟩ := by
    have h := hsend 0
    simpa using h
  have hstream : streamResponseRun hasRb souts =
      ⟨[TEv.errorEv (msgs 2)], 3, [1000, 2000], 3⟩ := by
    simp [streamResponseRun, streamLoop, hsfail, MAX_RETRIES, RETRY_DELAY]
  have hxai : (xaiSendMessageRun outs).attempts = 9 := by
    simp [xaiSendMessageRun, xaiSendLoop, hsend, hsend0, MAX_RETRIES, RETRY_DELAY]
  refine ⟨?_, ?_, ?_, ?_, ?_, ?_, hxai⟩ <;>
    simp [hsend0, hstream, streamResponseEvents, List.replicate]

/-- Witness for C1 (amended) at the all-failing outcome sequence. -/
theorem c1_amended_retry_bounds_witness :
    (xaiSendMessageRun (fun _ => SendOutcome.netFail "boom")).attempts = 9 :=
  (c1_amended_retry_bounds (fun _ => "boom") (fun _ => SendOutcome.netFail "boom")
    (fun _ => AttemptOutcome.netFail "boom") true (fun _ => rfl) (fun _ => rfl)).2.2.2.2.2.2

/-- Counterexample to C1 as stated: when every physical attempt fails with
a retryable (network) error, the logical call
`xaiService.sendMessage` makes 9 physical attempts, not at most 3. -/
theorem c1_counterexample_nine_attempts :
    (xaiSendMessageRun (fun _ => SendOutcome.netFail "network error")).attempts = 9 ∧
    ¬((xaiSendMessageRun (fun _ => SendOutcome.netFail "network error")).attempts ≤ 3) := by
  constructor
  · rfl
  · decide

/-- C2 (amended): the code classifies no cause as non-retryable: an HTTP
401 (`AuthError`) — and equally a malformed response body — goes through
the same catch-all retry path as any transient failure, so `onError` (or
the rejected promise) fires only after 3 physical attempts and 2 backoff
delays, with the authentication message preserved; it does not fire
immediately on first occurrence. -/
theorem c2_amended_auth_error_retried (hasRb : Bool) (souts : Nat → AttemptOutcome)
    (outs : Nat → SendOutcome) (st : String)
    (hs : ∀ k, souts k = .http 401 st none)
    (ho : ∀ k, outs k = .malformed "Unexpected end of JSON input") :
    (streamResponseRun hasRb souts).attempts = 3 ∧
    (streamResponseRun hasRb souts).delays = [1000, 2000] ∧
    (streamResponseRun hasRb souts).trace
      = [TEv.errorEv "Authentication failed: Invalid API key."] ∧
    (sendMessageRun outs).attempts = 3 ∧
    (sendMessageRun outs).result
      = .error ("Failed to get response from OpenRouter API: Unexpected end of JSON input") := by
  have hstream : streamResponseRun hasRb souts =
      ⟨[TEv.errorEv "Authentication failed: Invalid API key."], 3, [1000, 2000], 0⟩ := by
    simp [streamResponseRun, streamLoop, hs, MAX_RETRIES, RETRY_DELAY, handleApiErrorMsg]
  have hsendr : sendMessageRun outs =
      ⟨3, [1000, 2000],
        .error ("Failed to get response from OpenRouter API: Unexpected end of JSON input")⟩ := by
    simp [sendMessageRun, sendLoop, ho, MAX_RETRIES, RETRY_DELAY, sendAttempt]
  refine ⟨?_, ?_, ?_, ?_, ?_⟩ <;> simp [hstream, hsendr]

/-- Witness for C2 (amended) at concrete 401 outcomes. -/
theorem c2_amended_auth_error_retried_witness :
    (streamResponseRun true (fun _ => AttemptOutcome.http 401 "Unauthorized" none)).attempts = 3 :=
  (c2_amended_auth_error_retried true (fun _ => AttemptOutcome.http 401 "Unauthorized" none)
    (fun _ => SendOutcome.malformed "Unexpected end of JSON input") "Unauthorized"
    (fun _ => rfl) (fun _ => rfl)).1

/-- Counterexample to C2 as stated: when the server answers 401 on every
attempt, `streamResponse` still makes 3 physical attempts (2 retries)
before `onError`; the failure is not surfaced immediately with zero
retries. -/
theorem c2_counterexample_401_is_retried :
    (streamResponseRun true (fun _ => AttemptOutcome.http 401 "Unauthorized" none)).attempts = 3 ∧
    ¬((streamResponseRun true (fun _ => AttemptOutcome.http 401 "Unauthorized" none)).attempts = 1) := by
  constructor
  · rfl
  · decide

/-- C8 (amended): the 30-second timeout (measured from request start)
aborts the in-flight request through the `AbortController` and fires
`onError` with the distinct message `"Request timed out after 30 seconds"`
— but a timeout is terminal, not retryable: `aborted` is set, the retry
loop exits, and no further attempt is made regardless of remaining
budget. -/
theorem c8_amended_timeout_is_terminal (hasRb : Bool) (outs : Nat → AttemptOutcome)
    (fuel retries : Nat) (hr : retries ≤ MAX_RETRIES) (ht : outs retries = .timeout) :
    streamLoop hasRb outs (fuel + 1) retries
      = ⟨[TEv.errorEv "Request timed out after 30 seconds"], 1, [], 0⟩ := by
  unfold streamLoop
  rw [if_neg (by omega), ht]

/-- Witness for C8 (amended): a first-attempt timeout. -/
theorem c8_amended_timeout_is_terminal_witness :
    streamLoop true (fun _ => AttemptOutcome.timeout) 3 0
      = ⟨[TEv.errorEv "Request timed out after 30 seconds"], 1, [], 0⟩ :=
  c8_amended_timeout_is_terminal true (fun _ => AttemptOutcome.timeout) 2 0
    (by decide) rfl

/-- Counterexample to C8 as stated: the first attempt times out while the
second attempt would have streamed a complete response, yet the logical
call ends after 1 attempt with the timeout error — the timed-out attempt
is not retried even though retry budget remains. -/
theorem c8_counterexample_timeout_not_retried :
    (streamResponseRun true
      (fun n => if n = 0 then AttemptOutcome.timeout
        else AttemptOutcome.stream [scenarioTranscript.toList] none)).attempts = 1 ∧
    (streamResponseRun true
      (fun n => if n = 0 then AttemptOutcome.timeout
        else AttemptOutcome.stream [scenarioTranscript.toList] none)).trace
      = [TEv.errorEv "Request timed out after 30 seconds"] := by
  constructor <;> rfl

end GptLamp

namespace GptLamp

/-! ## Cache-control marker insertion (`cachedMessages`)

Value-level embedding of the per-message transformation of
`openRouterProvider.sendMessage` lines 49–70 and `streamResponse` lines
109–128 (the two call sites are textually identical).  Lengths count
characters, as `String.prototype.length` does for the claims' ASCII
inputs. -/

inductive ContentPart where
  | text (s : String) (cacheControl : Bool)
  | image (url : String) (detail : String)
  | video (url : String) (detail : String)
  | audio (url : String) (detail : String)
deriving Repr

inductive MsgContent where
  | str (s : String)
  | parts (ps : List ContentPart)
deriving Repr

structure Msg where
  role : String
  content : MsgContent
deriving Repr

/-- `part.type === "text" && typeof part.text === "string" && part.text.length > 4000`. -/
def isLargeText : ContentPart → Bool
  | .text s _ => s.length > 4000
  | _ => false

/-- `part.cache_control = { type: "ephemeral" }`. -/
def setCacheControl : ContentPart → ContentPart
  | .text s _ => .text s true
  | p => p

def hasCacheControl : ContentPart → Bool
  | .text _ cc => cc
  | _ => false

/-- The `for (let i = parts.length - 1; i >= 0; i--) { … break; }` loop
marks the first qualifying part when scanning from the end; this helper
marks the first qualifying part of its argument, to be applied to the
reversed list. -/
def markFirstLarge : List ContentPart → List ContentPart
  | [] => []
  | p :: ps => if isLargeText p then setCacheControl p :: ps else p :: markFirstLarge ps

/-- One message of `cachedMessages`: array content gets its last
over-threshold text part marked; an over-threshold string content is
rewritten into a one-part array bearing the marker; anything else is
returned unchanged. -/
def cacheMessage (m : Msg) : Msg :=
  match m.content with
  | .parts ps => { m with content := .parts ((markFirstLarge ps.reverse).reverse) }
  | .str s =>
    if s.length > 4000 then { m with content := .parts [ContentPart.text s true] }
    else m

/-- `messages.map((m) => …)`. -/
def cachedMessages (msgs : List Msg) : List Msg := msgs.map cacheMessage

def countMarked (ps : List ContentPart) : Nat := (ps.filter hasCacheControl).length

theorem countMarked_eq_zero (ps : List ContentPart)
    (h : ∀ p ∈ ps, hasCacheControl p = false) : countMarked ps = 0 := by
  induction ps with
  | nil => rfl
  | cons p ps ih =>
    simp only [countMarked, List.filter_cons, h p (List.mem_cons_self p ps),
      Bool.false_eq_true, if_false]
    exact ih (fun q hq => h q (List.mem_cons_of_mem _ hq))

theorem countMarked_append (a b : List ContentPart) :
    countMarked (a ++ b) = countMarked a + countMarked b := by
  simp [countMarked, List.filter_append]

theorem setCacheControl_marked (q : ContentPart) (h : isLargeText q = true) :
    hasCacheControl (setCacheControl q) = true := by
  cases q with
  | text s cc => rfl
  | image u d => simp [isLargeText] at h
  | video u d => simp [isLargeText] at h
  | audio u d => simp [isLargeText] at h

theorem markFirstLarge_none (ps : List ContentPart)
    (h : ∀ p ∈ ps, isLargeText p = false) : markFirstLarge ps = ps := by
  induction ps with
  | nil => rfl
  | cons p ps ih =>
    simp [markFirstLarge, h p (List.mem_cons_self p ps),
      ih (fun q hq => h q (List.mem_cons_of_mem _ hq))]

theorem markFirstLarge_found (ps : List ContentPart)
    (h : ∃ p ∈ ps, isLargeText p = true) :
    ∃ pre q suf, ps = pre ++ q :: suf ∧ (∀ p ∈ pre, isLargeText p = false) ∧
      isLargeText q = true ∧ markFirstLarge ps = pre ++ setCacheControl q :: suf := by
  induction ps with
  | nil =>
    obtain ⟨p, hp, _⟩ := h
    cases hp
  | cons p ps ih =>
    by_cases hl : isLargeText p = true
    · exact ⟨[], p, ps, rfl, by simp, hl, by simp [markFirstLarge, hl]⟩
    · have hl' : isLargeText p = false := by simpa using hl
      have hex : ∃ q ∈ ps, isLargeText q = true := by
        obtain ⟨q, hq, hlq⟩ := h
        rcases List.mem_cons.mp hq with rfl | hq'
        · exact absurd hlq hl
        · exact ⟨q, hq', hlq⟩
      obtain ⟨pre, q, suf, hps, hpre, hq, hmk⟩ := ih hex
      refine ⟨p :: pre, q, suf, by rw [hps, List.cons_append], ?_, hq, ?_⟩
      · intro x hx
        rcases List.mem_cons.mp hx with rfl | hx'
        · exact hl'
        · exact hpre x hx'
      · simp [markFirstLarge, hl', hmk]

theorem cacheMessage_parts (m : Msg) (ps : List ContentPart)
    (h : m.content = .parts ps) :
    cacheMessage m = { m with content := .parts ((markFirstLarge ps.reverse).reverse) } := by
  unfold cacheMessage
  rw [h]

theorem cacheMessage_str (m : Msg) (s : String) (h : m.content = .str s) :
    cacheMessage m =
      (if s.length > 4000 then { m with content := .parts [ContentPart.text s true] }
       else m) := by
  unfold cacheMessage
  rw [h]

/-- C6: in the transformed message list, an over-threshold string content
becomes a one-part array bearing the ephemeral marker; for array content
whose parts the caller supplied unmarked, when some text part exceeds 4000
characters exactly one part of the whole message carries the marker, and
it is the last qualifying text part (no qualifying part follows it);
messages with no over-threshold text are left unmarked. -/
theorem c6_cache_marker_on_last_qualifying_part (m : Msg)
    (hunmarked : ∀ ps, m.content = .parts ps → ∀ p ∈ ps, hasCacheControl p = false) :
    (∀ s, m.content = .str s → s.length > 4000 →
      cacheMessage m = { m with content := .parts [ContentPart.text s true] }) ∧
    (∀ s, m.content = .str s → ¬(s.length > 4000) → cacheMessage m = m) ∧
    (∀ ps, m.content = .parts ps →
      ((∀ p ∈ ps, isLargeText p = false) →
        cacheMessage m = { m with content := .parts ps }) ∧
      ((∃ p ∈ ps, isLargeText p = true) →
        ∃ pre q suf, ps = pre ++ q :: suf ∧ isLargeText q = true ∧
          (∀ p ∈ suf, isLargeText p = false) ∧
          cacheMessage m = { m with content := .parts (pre ++ setCacheControl q :: suf) } ∧
          countMarked (pre ++ setCacheControl q :: suf) = 1)) ∧
    (∀ msgs, cachedMessages msgs = msgs.map cacheMessage) := by
  refine ⟨?_, ?_, ?_, fun msgs => rfl⟩
  · intro s hs hlen
    rw [cacheMessage_str m s hs, if_pos hlen]
  · intro s hs hlen
    rw [cacheMessage_str m s hs, if_neg hlen]
  · intro ps hps
    have hU := hunmarked ps hps
    constructor
    · intro hnone
      rw [cacheMessage_parts m ps hps]
      have hmk : markFirstLarge ps.reverse = ps.reverse :=
        markFirstLarge_none _ (fun p hp => hnone p (List.mem_reverse.mp hp))
      rw [hmk, List.reverse_reverse]
    · intro hex
      have hex' : ∃ p ∈ ps.reverse, isLargeText p = true := by
        obtain ⟨p, hp, hl⟩ := hex
        exact ⟨p, List.mem_reverse.mpr hp, hl⟩
      obtain ⟨pre', q, suf', hps', hpre', hq, hmk⟩ := markFirstLarge_found _ hex'
      have hdec : ps = suf'.reverse ++ q :: pre'.reverse := by
        have hrr := congrArg List.reverse hps'
        rw [List.reverse_reverse] at hrr
        rw [hrr]
        simp
      refine ⟨suf'.reverse, q, pre'.reverse, hdec, hq, ?_, ?_, ?_⟩
      · intro p hp
        exact hpre' p (List.mem_reverse.mp hp)
      · rw [cacheMessage_parts m ps hps, hmk]
        have hrev : (pre' ++ setCacheControl q :: suf').reverse
            = suf'.reverse ++ setCacheControl q :: pre'.reverse := by simp
        rw [hrev]
      · have hz1 : countMarked suf'.reverse = 0 := countMarked_eq_zero _ (by
          intro p hp
          exact hU p (by rw [hdec]; exact List.mem_append_left _ hp))
        have hz2 : countMarked pre'.reverse = 0 := countMarked_eq_zero _ (by
          intro p hp
          exact hU p (by
            rw [hdec]
            exact List.mem_append_right _ (List.mem_cons_of_mem _ hp)))
        have hstep : countMarked (setCacheControl q :: pre'.reverse)
            = countMarked pre'.reverse + 1 := by
          simp [countMarked, List.filter_cons, setCacheControl_marked q hq]
        rw [countMarked_append, hz1, hstep, hz2]

/-- Witness for C6: a user message whose string content has 4001
characters is rewritten into a one-part marked array. -/
theorem c6_cache_marker_witness :
    cacheMessage ⟨"user", .str (String.mk (List.replicate 4001 'a'))⟩
      = ⟨"user", .parts [ContentPart.text (String.mk (List.replicate 4001 'a')) true]⟩ :=
  (c6_cache_marker_on_last_qualifying_part
      ⟨"user", .str (String.mk (List.replicate 4001 'a'))⟩
      (fun ps h => by cases h)).1
    (String.mk (List.replicate 4001 'a')) rfl
    (by
      show (List.replicate 4001 'a').length > 4000
      rw [List.length_replicate]
      omega)

end GptLamp

namespace GptLamp

/-! ## Wire request bodies and the plugins field

`ChatCompletionRequest` (`types.ts`) declares an optional `plugins` field
and `ChatContext.tsx` populates `options.plugins` when web search is
active, but the request-body object literals in `openrouter.ts` (lines
72–78 and 130–137) list only `model`, `messages`, `temperature`,
`max_tokens`, (`stream`,) and `usage` — `options.plugins` is never read,
so the emitted body carries no `plugins` property (`none` models the
absent field). -/

structure Plugin where
  id : String
  max_results : Option Nat
  search_prompt : Option String
deriving Repr

structure APIOptions where
  temperature : Option Rat
  max_tokens : Option Nat
  model : Option String
  plugins : Option (List Plugin)
deriving Repr

structure ChatCompletionRequest where
  model : String
  messages : List Msg
  temperature : Rat
  max_tokens : Nat
  stream : Option Bool
  usage : Bool
  plugins : Option (List Plugin)
deriving Repr

/-- JS `a || d` on an optional string: the empty string is falsy. -/
def jsOrDefault (o : Option String) (d : String) : String :=
  match o with
  | some s => if s = "" then d else s
  | none => d

/-- Request body of `openRouterProvider.streamResponse` (lines 130–137). -/
def buildStreamRequestBody (options : APIOptions) (cachedMsgs : List Msg) :
    ChatCompletionRequest :=
  { model := jsOrDefault options.model "x-ai/grok-4"
    messages := cachedMsgs
    temperature := options.temperature.getD (7 / 10)
    max_tokens := options.max_tokens.getD 8192
    stream := some true
    usage := true
    plugins := none }

/-- Request body of `openRouterProvider.sendMessage` (lines 72–78): same
fields without `stream`. -/
def buildSendRequestBody (options : APIOptions) (cachedMsgs : List Msg) :
    ChatCompletionRequest :=
  { model := jsOrDefault options.model "x-ai/grok-4"
    messages := cachedMsgs
    temperature := options.temperature.getD (7 / 10)
    max_tokens := options.max_tokens.getD 8192
    stream := none
    usage := true
    plugins := none }

/-- `WEB_SEARCH_PROMPT` (`lib/constants.ts`). -/
def WEB_SEARCH_PROMPT : String :=
  "Search for factual, verifiable information from multiple reputable sources, avoiding opinion, advocacy, or activist framing. Include diverse perspectives where relevant, and prioritize original reporting, primary data, and official statements."

/-- `DEFAULT_WEB_PLUGIN` (`lib/constants.ts`). -/
def DEFAULT_WEB_PLUGIN : Plugin :=
  { id := "web", max_results := some 1, search_prompt := some WEB_SEARCH_PROMPT }

/-- `const plugins = webSearchActive ? [DEFAULT_WEB_PLUGIN] : undefined;`
(`ChatContext.tsx` line 903), passed into the call's options
(`plugins: plugins`, line 1036). -/
def pluginsForCall (webSearchActive : Bool) : Option (List Plugin) :=
  if webSearchActive then some [DEFAULT_WEB_PLUGIN] else none

/-- C7 (code bug): the caller requests web search by passing the plugin
list in the options, yet the provider's request bodies never contain a
plugins field — for every options value, streaming or buffered, the
emitted body's `plugins` is absent; in particular at the concrete
web-search call (options carrying `[DEFAULT_WEB_PLUGIN]`) the requested
plugin list does not appear in the wire request, contradicting the spec's
"emits plugin list when search capability is requested". -/
theorem c7_plugins_never_emitted :
    pluginsForCall true = some [DEFAULT_WEB_PLUGIN] ∧
    (∀ (options : APIOptions) (msgs : List Msg),
      (buildStreamRequestBody options msgs).plugins = none ∧
      (buildSendRequestBody options msgs).plugins = none) ∧
    (buildStreamRequestBody
        ⟨none, none, some "x-ai/grok-4:online", pluginsForCall true⟩
        [⟨"user", .str "Hello"⟩]).plugins = none :=
  ⟨rfl, fun _ _ => ⟨rfl, rfl⟩, rfl⟩

end GptLamp

namespace GptLamp

/-! ## No mutation of caller-supplied objects (heap model)

`cachedMessages` transforms the conversation on copies —
`messages.map((m) => …)` with `parts = m.content.map((p) => ({ ...p }))`
and `return { ...m, content: parts }` (`openrouter.ts` lines 49–70,
109–128) — and `addMarkdownFormattingInstructions` copies each message
with `messages.map(m => ({ ...m }))` before assigning `content` on the
copy (`api.ts` lines 29–56).  To state that the caller's objects stay
untouched we give these functions a small heap semantics: objects live at
addresses (indices into a list), `{ ...x }` allocates a fresh copy at the
end, and property assignment is a store.  JS strings are immutable
values, so the credential string cannot be mutated; the theorem concerns
the message and part objects. -/

inductive HContent where
  | str (s : String)
  | arr (partAddrs : List Nat)

inductive HObj where
  | msg (role : String) (content : HContent)
  | part (p : ContentPart)

/-- Shallow copy `{ ...x }`: same field values (an `arr` content keeps
pointing at the same part objects, exactly as the spread copy does). -/
def copyObj : HObj → HObj
  | .msg r c => .msg r c
  | .part p => .part p

def allocCopyObj (h : List HObj) (a : Nat) : HObj :=
  match h.get? a with
  | some o => copyObj o
  | none => HObj.part (.text "" false)

/-- `xs.map(x => ({ ...x }))`: allocate copies of the objects at `addrs`,
returning the new heap and the fresh addresses in order. -/
def allocCopies : List HObj → List Nat → List HObj × List Nat
  | h, [] => (h, [])
  | h, a :: rest =>
    ((allocCopies (h ++ [allocCopyObj h a]) rest).1,
     h.length :: (allocCopies (h ++ [allocCopyObj h a]) rest).2)

/-- The marking loop of `cachedMessages` run over part addresses from the
end: the first large text part found gets `cache_control` stored on it and
the loop breaks. -/
def markFromEnd : List HObj → List Nat → List HObj
  | h, [] => h
  | h, a :: rest =>
    match h.get? a with
    | some (.part p) =>
      if isLargeText p then h.set a (HObj.part (setCacheControl p))
      else markFromEnd h rest
    | _ => markFromEnd h rest

/-- One message of `cachedMessages`, heap-level: array content → copy the
parts, mark the last large text copy, allocate the new message object;
large string content → allocate the one marked part and the new message;
otherwise `return m` (the same reference). -/
def cacheMsgHeap (h : List HObj) (a : Nat) : List HObj × Nat :=
  match h.get? a with
  | some (.msg role (.arr partAddrs)) =>
    (markFromEnd (allocCopies h partAddrs).1 (allocCopies h partAddrs).2.reverse
        ++ [HObj.msg role (.arr (allocCopies h partAddrs).2)],
     (markFromEnd (allocCopies h partAddrs).1 (allocCopies h partAddrs).2.reverse).length)
  | some (.msg role (.str s)) =>
    if s.length > 4000 then
      (h ++ [HObj.part (.text s true), HObj.msg role (.arr [h.length])], h.length + 1)
    else (h, a)
  | _ => (h, a)

def cachedMessagesHeap : List HObj → List Nat → List HObj × List Nat
  | h, [] => (h, [])
  | h, a :: rest =>
    ((cachedMessagesHeap (cacheMsgHeap h a).1 rest).1,
     (cacheMsgHeap h a).2 :: (cachedMessagesHeap (cacheMsgHeap h a).1 rest).2)

/-- The markdown instruction text appended by
`addMarkdownFormattingInstructions` (`api.ts` line 30). -/
def formattingText : String :=
  "Format your responses using Markdown for better readability when appropriate: use *italics* for emphasis, bullet points and numbered lists where appropriate, and code blocks with syntax highlighting (```language) for code snippets."

/-- The system message injected when the caller supplied none
(`api.ts` lines 43–46). -/
def defaultSystemText : String :=
  "You are an AI assistant. You are helpful, concise, and provide accurate information. " ++ formattingText

/-- `s.includes(pat)`. -/
def listContainsSub (pat : List Char) : List Char → Bool
  | [] => startsList pat []
  | c :: cs => startsList pat (c :: cs) || listContainsSub pat cs

/-- `updatedMessages.findIndex(msg => msg.role === "system")`, returned as
the address of the first system message among `addrs`. -/
def findSystemAddr (h : List HObj) : List Nat → Option Nat
  | [] => none
  | a :: rest =>
    match h.get? a with
    | some (.msg r _) => if r = "system" then some a else findSystemAddr h rest
    | _ => findSystemAddr h rest

/-- The conditional in-place update of the found system copy
(`api.ts` lines 49–52): when its content is a string not already
containing the marker text, assign the extended content on the copy. -/
def applyFormattingStore (h1 : List HObj) (copies : List Nat) (ca : Nat) :
    List HObj × List Nat :=
  match h1.get? ca with
  | some (.msg r (.str s)) =>
    if listContainsSub "Format your responses using Markdown".toList s.toList then
      (h1, copies)
    else
      (h1.set ca (HObj.msg r (.str (s ++ " " ++ formattingText))), copies)
  | _ => (h1, copies)

/-- `addMarkdownFormattingInstructions`, heap-level: copy every message;
if no system message exists, unshift a fresh default one; else apply the
conditional content store on the system copy. -/
def addMarkdownHeap (h : List HObj) (msgs : List Nat) : List HObj × List Nat :=
  match findSystemAddr (allocCopies h msgs).1 (allocCopies h msgs).2 with
  | none =>
    ((allocCopies h msgs).1 ++ [HObj.msg "system" (.str defaultSystemText)],
     (allocCopies h msgs).1.length :: (allocCopies h msgs).2)
  | some ca => applyFormattingStore (allocCopies h msgs).1 (allocCopies h msgs).2 ca

/-- Heap `h'` extends `h` without touching the first `n` cells. -/
def UnchangedBelow (n : Nat) (h h' : List HObj) : Prop :=
  n ≤ h'.length ∧ ∀ i, i < n → h'.get? i = h.get? i

theorem unchangedBelow_refl (n : Nat) (h : List HObj) (hn : n ≤ h.length) :
    UnchangedBelow n h h :=
  ⟨hn, fun _ _ => rfl⟩

theorem unchangedBelow_trans {n : Nat} {h1 h2 h3 : List HObj}
    (a : UnchangedBelow n h1 h2) (b : UnchangedBelow n h2 h3) :
    UnchangedBelow n h1 h3 :=
  ⟨b.1, fun i hi => (b.2 i hi).trans (a.2 i hi)⟩

theorem unchangedBelow_mono {n m : Nat} {h h' : List HObj}
    (a : UnchangedBelow m h h') (hnm : n ≤ m) : UnchangedBelow n h h' :=
  ⟨le_trans hnm a.1, fun i hi => a.2 i (lt_of_lt_of_le hi hnm)⟩

theorem unchangedBelow_append (h ext : List HObj) :
    UnchangedBelow h.length h (h ++ ext) := by
  constructor
  · simp
  · intro i hi
    exact List.get?_append hi

theorem unchangedBelow_set (h : List HObj) (a : Nat) (o : HObj) (n : Nat)
    (hn : n ≤ a) (hlen : n ≤ h.length) : UnchangedBelow n h (h.set a o) := by
  constructor
  · simpa using hlen
  · intro i hi
    apply List.get?_set_ne
    omega

theorem allocCopies_spec (addrs : List Nat) : ∀ (h : List HObj),
    UnchangedBelow h.length h (allocCopies h addrs).1 ∧
    ∀ a ∈ (allocCopies h addrs).2, h.length ≤ a := by
  induction addrs with
  | nil =>
    intro h
    exact ⟨unchangedBelow_refl _ _ le_rfl, by simp [allocCopies]⟩
  | cons a rest ih =>
    intro h
    obtain ⟨ih1, ih2⟩ := ih (h ++ [allocCopyObj h a])
    have hstep : UnchangedBelow h.length h (h ++ [allocCopyObj h a]) :=
      unchangedBelow_append h _
    have hlen : h.length ≤ (h ++ [allocCopyObj h a]).length := by simp
    constructor
    · exact unchangedBelow_trans hstep (unchangedBelow_mono ih1 hlen)
    · intro b hb
      simp only [allocCopies, List.mem_cons] at hb
      rcases hb with rfl | hb'
      · exact le_rfl
      · exact le_trans hlen (ih2 b hb')

theorem markFromEnd_unchanged (rev : List Nat) (h : List HObj) (n : Nat)
    (hlen : n ≤ h.length) (ha : ∀ a ∈ rev, n ≤ a) :
    UnchangedBelow n h (markFromEnd h rev) := by
  induction rev with
  | nil => exact unchangedBelow_refl _ _ hlen
  | cons a rest ih =>
    have htail : ∀ b ∈ rest, n ≤ b := fun b hb => ha b (List.mem_cons_of_mem _ hb)
    unfold markFromEnd
    cases h.get? a with
    | none => exact ih htail
    | some o =>
      cases o with
      | msg r c => exact ih htail
      | part p =>
        by_cases hl : isLargeText p = true
        · simp only [hl, if_true]
          exact unchangedBelow_set h a _ n (ha a (List.mem_cons_self _ _)) hlen
        · simp only [hl, if_false]
          exact ih htail

theorem cacheMsgHeap_unchanged (h : List HObj) (a : Nat) :
    UnchangedBelow h.length h (cacheMsgHeap h a).1 := by
  unfold cacheMsgHeap
  cases hga : h.get? a with
  | none => exact unchangedBelow_refl _ _ le_rfl
  | some o =>
    cases o with
    | part p => exact unchangedBelow_refl _ _ le_rfl
    | msg role c =>
      cases c with
      | str s =>
        by_cases hl : s.length > 4000
        · simp only [hl, if_true]
          exact unchangedBelow_append h _
        · simp only [hl, if_false]
          exact unchangedBelow_refl _ _ le_rfl
      | arr partAddrs =>
        obtain ⟨hc1, hc2⟩ := allocCopies_spec partAddrs h
        have hmark : UnchangedBelow h.length (allocCopies h partAddrs).1
            (markFromEnd (allocCopies h partAddrs).1 (allocCopies h partAddrs).2.reverse) := by
          apply markFromEnd_unchanged
          · exact hc1.1
          · intro b hb
            exact hc2 b (List.mem_reverse.mp hb)
        have happ : UnchangedBelow h.length
            (markFromEnd (allocCopies h partAddrs).1 (allocCopies h partAddrs).2.reverse)
            (markFromEnd (allocCopies h partAddrs).1 (allocCopies h partAddrs).2.reverse
              ++ [HObj.msg role (.arr (allocCopies h partAddrs).2)]) :=
          unchangedBelow_mono (unchangedBelow_append _ _) hmark.1
        exact unchangedBelow_trans hc1 (unchangedBelow_trans hmark happ)

theorem cachedMessagesHeap_unchanged (msgs : List Nat) : ∀ (h : List HObj),
    UnchangedBelow h.length h (cachedMessagesHeap h msgs).1 := by
  induction msgs with
  | nil => intro h; exact unchangedBelow_refl _ _ le_rfl
  | cons a rest ih =>
    intro h
    have h1 := cacheMsgHeap_unchanged h a
    have h2 := ih (cacheMsgHeap h a).1
    exact unchangedBelow_trans h1 (unchangedBelow_mono h2 h1.1)

theorem findSystemAddr_mem (h : List HObj) : ∀ (addrs : List Nat) (ca : Nat),
    findSystemAddr h addrs = some ca → ca ∈ addrs := by
  intro addrs
  induction addrs with
  | nil => intro ca hf; cases hf
  | cons a rest ih =>
    intro ca hf
    unfold findSystemAddr at hf
    cases hga : h.get? a with
    | none =>
      rw [hga] at hf
      exact List.mem_cons_of_mem _ (ih ca hf)
    | some o =>
      rw [hga] at hf
      cases o with
      | part p => exact List.mem_cons_of_mem _ (ih ca hf)
      | msg r c =>
        have hf' : (if r = "system" then some a else findSystemAddr h rest) = some ca := hf
        by_cases hr : r = "system"
        · rw [if_pos hr] at hf'
          injection hf' with he
          simp [he]
        · rw [if_neg hr] at hf'
          exact List.mem_cons_of_mem _ (ih ca hf')

theorem applyFormattingStore_unchanged (h1 : List HObj) (copies : List Nat)
    (ca n : Nat) (hn : n ≤ ca) (hlen : n ≤ h1.length) :
    UnchangedBelow n h1 (applyFormattingStore h1 copies ca).1 := by
  unfold applyFormattingStore
  cases hg : h1.get? ca with
  | none => exact unchangedBelow_refl _ _ hlen
  | some o =>
    cases o with
    | part p => exact unchangedBelow_refl _ _ hlen
    | msg r c =>
      cases c with
      | arr pa => exact unchangedBelow_refl _ _ hlen
      | str s =>
        by_cases hin :
            listContainsSub "Format your responses using Markdown".toList s.toList = true
        · simp only [hin, if_true]
          exact unchangedBelow_refl _ _ hlen
        · simp only [hin, if_false]
          exact unchangedBelow_set _ ca _ n hn hlen

theorem addMarkdownHeap_unchanged (h : List HObj) (msgs : List Nat) :
    UnchangedBelow h.length h (addMarkdownHeap h msgs).1 := by
  obtain ⟨hc1, hc2⟩ := allocCopies_spec msgs h
  unfold addMarkdownHeap
  cases hf : findSystemAddr (allocCopies h msgs).1 (allocCopies h msgs).2 with
  | none =>
    exact unchangedBelow_trans hc1
      (unchangedBelow_mono (unchangedBelow_append _ _) hc1.1)
  | some ca =>
    have hca : h.length ≤ ca := hc2 ca (findSystemAddr_mem _ _ ca hf)
    exact unchangedBelow_trans hc1
      (applyFormattingStore_unchanged _ _ ca h.length hca hc1.1)

/-- C10: neither transformation mutates the caller's input: running the
heap semantics of `cachedMessages` (cache-marker insertion of
`sendMessage`/`streamResponse`) or of `addMarkdownFormattingInstructions`
(system-message injection) over any heap leaves every pre-existing object
— the conversation's message objects and their content parts — exactly як
it was; all stores target freshly allocated copies.  The credential is an
immutable JS string and cannot be mutated. -/
theorem c10_inputs_never_mutated (h : List HObj) (msgs : List Nat) :
    (∀ i, i < h.length → (cachedMessagesHeap h msgs).1.get? i = h.get? i) ∧
    (∀ i, i < h.length → (addMarkdownHeap h msgs).1.get? i = h.get? i) :=
  ⟨(cachedMessagesHeap_unchanged msgs h).2, (addMarkdownHeap_unchanged h msgs).2⟩

/-- Witness for C10: a one-message heap is unchanged at its input cell. -/
theorem c10_inputs_never_mutated_witness :
    (cachedMessagesHeap [HObj.msg "user" (.str "hello")] [0]).1.get? 0
      = ([HObj.msg "user" (.str "hello")] : List HObj).get? 0 :=
  (c10_inputs_never_mutated [HObj.msg "user" (.str "hello")] [0]).1 0 (by decide)

end GptLamp
